import Mathlib

/-!
Verification development for the mcp-ssh-tmux core: a shallow embedding of
`validation.py` (CommandValidator, OutputLimiter), `session_manager.py`
(TmuxSessionManager) and the snapshot-hint layer of `server.py`, together
with theorems settling the specification claims about them.

Python strings are modelled as Lean `String`/`List Char`; the regular
expressions of the source are modelled by equivalent explicit scanners
(each documented at its definition); fallible operations return `Except`.
-/

namespace McpSshTmux

/-- The ASCII escape character `\x1b`. -/
def escChar : Char := Char.ofNat 27

/-- The ASCII bell character `\x07`. -/
def belChar : Char := Char.ofNat 7

/-- Python `\s` (ASCII range): space, tab, newline, carriage return, form feed, vertical tab. -/
def isPySpace (c : Char) : Bool :=
  c = ' ' ∨ c = '\t' ∨ c = '\n' ∨ c = '\r' ∨ c = Char.ofNat 11 ∨ c = Char.ofNat 12

/-- Python `\w` (ASCII range): letters, digits, underscore. -/
def isWordChar (c : Char) : Bool :=
  ('a' ≤ c ∧ c ≤ 'z') ∨ ('A' ≤ c ∧ c ≤ 'Z') ∨ ('0' ≤ c ∧ c ≤ '9') ∨ c = '_'

/-- ASCII lowercasing of a character, modelling Python `str.lower()` on the
ASCII command text this program handles. -/
def lowerCh (c : Char) : Char :=
  if 'A' ≤ c ∧ c ≤ 'Z' then Char.ofNat (c.toNat + 32) else c

/-- ASCII lowercasing of a whole string (Python `str.lower()`). -/
def lowerStr (s : String) : String := String.mk (s.toList.map lowerCh)

/-- Character class `[0-?]` of the CSI pattern in `_strip_ansi`. -/
def isCsiParam (c : Char) : Bool := decide (0x30 ≤ c.toNat ∧ c.toNat ≤ 0x3f)

/-- Character class of the CSI pattern in `_strip_ansi` ranging from space to slash (0x20 to 0x2f). -/
def isCsiInter (c : Char) : Bool := decide (0x20 ≤ c.toNat ∧ c.toNat ≤ 0x2f)

/-- Character class `[@-~]` of the CSI pattern in `_strip_ansi`. -/
def isCsiFinal (c : Char) : Bool := decide (0x40 ≤ c.toNat ∧ c.toNat ≤ 0x7e)

/-- Attempt to match the CSI regex of `_strip_ansi` (escape, open bracket,
a run of parameter bytes, a run of intermediate bytes, one final byte)
at the head of the input; on success return the remainder after the match.
The three character classes are pairwise disjoint, so the greedy scan is
exactly the Python regex semantics. -/
def tryCsi (l : List Char) : Option (List Char) :=
  match l with
  | c0 :: c1 :: rest =>
    if c0 = escChar ∧ c1 = '[' then
      match (rest.dropWhile isCsiParam).dropWhile isCsiInter with
      | f :: r3 => if isCsiFinal f then some r3 else none
      | [] => none
    else none
  | _ => none

/-- Attempt to match `\x1b\][^\x07]*\x07` at the head of the input. -/
def tryOscBel (l : List Char) : Option (List Char) :=
  match l with
  | c0 :: c1 :: rest =>
    if c0 = escChar ∧ c1 = ']' then
      match rest.dropWhile (fun c => c ≠ belChar) with
      | _ :: r2 => some r2
      | [] => none
    else none
  | _ => none

/-- Attempt to match `\x1b\][^\x1b]*\x1b\\` at the head of the input.
The bracketed run cannot cross an escape character, so the match succeeds
exactly when the first escape character after the opener is followed by a
backslash. -/
def tryOscSt (l : List Char) : Option (List Char) :=
  match l with
  | c0 :: c1 :: rest =>
    if c0 = escChar ∧ c1 = ']' then
      match rest.dropWhile (fun c => c ≠ escChar) with
      | e :: b :: r2 => if e = escChar ∧ b = '\\' then some r2 else none
      | _ => none
    else none
  | _ => none

/-- Attempt to match `\x1b[PX^_][^\x1b]*\x1b\\` at the head of the input. -/
def tryDcs (l : List Char) : Option (List Char) :=
  match l with
  | c0 :: c1 :: rest =>
    if c0 = escChar ∧ (c1 = 'P' ∨ c1 = 'X' ∨ c1 = '^' ∨ c1 = '_') then
      match rest.dropWhile (fun c => c ≠ escChar) with
      | e :: b :: r2 => if e = escChar ∧ b = '\\' then some r2 else none
      | _ => none
    else none
  | _ => none

/-- Attempt to match `<\d+>` at the head of the input (the terminal-noise
pattern of `_strip_ansi`; digits modelled as ASCII digits). -/
def tryAngle (l : List Char) : Option (List Char) :=
  match l with
  | c0 :: rest =>
    if c0 = '<' then
      match rest.dropWhile Char.isDigit with
      | '>' :: r2 => if rest.takeWhile Char.isDigit ≠ [] then some r2 else none
      | _ => none
    else none
  | [] => none

/-- One `re.sub(pattern, "", text)` pass: scan left to right, at each
position attempt a match; on a match drop it and continue after it, else
emit the character and move one position right.  `fuel` bounds recursion
and is instantiated with the input length (every step consumes at least
one character). -/
def scanSub (tryAt : List Char → Option (List Char)) : Nat → List Char → List Char
  | 0, l => l
  | _ + 1, [] => []
  | fuel + 1, c :: rest =>
    match tryAt (c :: rest) with
    | some rem => scanSub tryAt fuel rem
    | none => c :: scanSub tryAt fuel rest

/-- CSI-sequence removal pass of `_strip_ansi`. -/
def subCsi (l : List Char) : List Char := scanSub tryCsi l.length l

/-- OSC-BEL removal pass of `_strip_ansi`. -/
def subOscBel (l : List Char) : List Char := scanSub tryOscBel l.length l

/-- OSC-ST removal pass of `_strip_ansi`. -/
def subOscSt (l : List Char) : List Char := scanSub tryOscSt l.length l

/-- DCS/SOS/PM/APC removal pass of `_strip_ansi`. -/
def subDcs (l : List Char) : List Char := scanSub tryDcs l.length l

/-- Bracketed-integer (`<N>`) removal pass of `_strip_ansi`. -/
def subAngle (l : List Char) : List Char := scanSub tryAngle l.length l

/-- Character class `[\r\x00␌⏎]` removed by `_strip_ansi`. -/
def isSpecialNoise (c : Char) : Bool :=
  c = '\r' ∨ c = Char.ofNat 0 ∨ c = Char.ofNat 0x240c ∨ c = Char.ofNat 0x23ce

/-- Character class `[\x01-\x08\x0b\x0c\x0e-\x1f\x7f]` removed by `_strip_ansi`. -/
def isCtrlNoise (c : Char) : Bool :=
  decide ((1 ≤ c.toNat ∧ c.toNat ≤ 8) ∨ c.toNat = 0xb ∨ c.toNat = 0xc ∨
    (0xe ≤ c.toNat ∧ c.toNat ≤ 0x1f) ∨ c.toNat = 0x7f)

/-- The `_strip_ansi` pipeline of `TmuxSessionManager` on character lists:
the seven `re.sub(…, "", text)` passes applied in source order. -/
def stripAnsiList (l : List Char) : List Char :=
  ((((((subCsi l |> subOscBel) |> subOscSt) |> subDcs) |> subAngle).filter
      (fun c => !isSpecialNoise c)).filter (fun c => !isCtrlNoise c))

/-- `TmuxSessionManager._strip_ansi` on strings (the ScreenSanitizer). -/
def strip_ansi (s : String) : String := String.mk (stripAnsiList s.toList)

/-- Substring test: `occursIn m l` models Python `m in l` on strings. -/
def occursIn (m l : List Char) : Bool := l.tails.any (fun t => m.isPrefixOf t)

/-- Python `str.strip()` (ASCII whitespace set). -/
def pyStripList (l : List Char) : List Char :=
  ((l.dropWhile isPySpace).reverse.dropWhile isPySpace).reverse

/-- Python `str.strip()` on strings. -/
def pyStrip (s : String) : String := String.mk (pyStripList s.toList)

/-- Line-break characters recognised by Python `str.splitlines()`. -/
def isLineBreak (c : Char) : Bool :=
  c = '\n' ∨ c = '\r' ∨ c.toNat = 11 ∨ c.toNat = 12 ∨ c.toNat = 0x1c ∨
    c.toNat = 0x1d ∨ c.toNat = 0x1e ∨ c.toNat = 0x85 ∨ c.toNat = 0x2028 ∨
    c.toNat = 0x2029

/-- Worker for `pySplitlines`: accumulate the current line; a terminator
closes it (a carriage return followed by a newline counts once); a final
fragment without terminator is its own line; no trailing empty line is
produced for a trailing terminator. -/
def slGo (cur : List Char) : List Char → List (List Char)
  | [] => [cur]
  | '\r' :: '\n' :: rest =>
    match rest with
    | [] => [cur]
    | _ => cur :: slGo [] rest
  | c :: rest =>
    if isLineBreak c then
      match rest with
      | [] => [cur]
      | _ => cur :: slGo [] rest
    else slGo (cur ++ [c]) rest

/-- Python `str.splitlines()`. -/
def pySplitlines (l : List Char) : List (List Char) :=
  match l with
  | [] => []
  | _ => slGo [] l

/-- Split at the first occurrence of `m` (nonempty): return the part
before it and the part after it, or `none` when `m` does not occur. -/
def firstSplitList (m : List Char) : List Char → Option (List Char × List Char)
  | [] => if m.isPrefixOf ([] : List Char) then some ([], []) else none
  | c :: rest =>
    if m.isPrefixOf (c :: rest) then some ([], (c :: rest).drop m.length)
    else
      match firstSplitList m rest with
      | some (a, b) => some (c :: a, b)
      | none => none

/-- Worker for `pySplitList`, with fuel bounding the number of splits. -/
def pySplitAux (m : List Char) : Nat → List Char → List (List Char)
  | 0, l => [l]
  | fuel + 1, l =>
    match firstSplitList m l with
    | none => [l]
    | some (a, b) => a :: pySplitAux m fuel b

/-- Python `str.split(sep)` with a nonempty separator: split at each
non-overlapping occurrence, scanning left to right. -/
def pySplitList (m l : List Char) : List (List Char) := pySplitAux m (l.length + 1) l

/-- Join a list of lines with newlines (Python `"\n".join(lines)`). -/
def joinNL (ls : List (List Char)) : List Char := List.intercalate ['\n'] ls

/-- Result of the completion heuristic in `server.get_snapshot_with_hints`. -/
inductive SnapshotHint where
  | promptDetected
  | awaitingInput
  | unclassified
deriving DecidableEq, Repr

/-- The line inspected by the completion heuristic:
`snapshot.splitlines()[-1] if snapshot.strip() else ""` in
`server.get_snapshot_with_hints`. -/
def last_line (snapshot : String) : String :=
  if pyStripList snapshot.toList = [] then ""
  else String.mk ((pySplitlines snapshot.toList).getLastD [])

/-- The prompt regex of `get_snapshot_with_hints`: a dollar, hash,
greater-than or percent character followed only by whitespace up to the
end of the line. -/
def promptRegexMatch (l : List Char) : Bool :=
  l.tails.any fun t =>
    match t with
    | c :: r => decide (c = '$' ∨ c = '#' ∨ c = '>' ∨ c = '%') && r.all isPySpace
    | [] => false

/-- The interactive-input regex of `get_snapshot_with_hints`
(case-insensitive): a bracketed y/n, or a password or passphrase query. -/
def interactiveRegexMatch (l : List Char) : Bool :=
  let low := l.map lowerCh
  occursIn "[y/n]".toList low || occursIn "password:".toList low ||
    occursIn "passphrase:".toList low

/-- The completion heuristic of `server.get_snapshot_with_hints`,
lines 20 to 28: classify the snapshot by its final line. -/
def get_hint (snapshot : String) : SnapshotHint :=
  let ll := (last_line snapshot).toList
  if promptRegexMatch ll then .promptDetected
  else if interactiveRegexMatch ll then .awaitingInput
  else .unclassified

/-- Modelled from the spec's words, for comparison with `get_hint`: the
completion heuristic applied to the last non-blank line of a capture. -/
def classifySpecLastNonBlank (snapshot : String) : SnapshotHint :=
  let lines := (pySplitlines snapshot.toList).filter (fun l => !(pyStripList l).isEmpty)
  let ll := lines.getLastD []
  if promptRegexMatch ll then .promptDetected
  else if interactiveRegexMatch ll then .awaitingInput
  else .unclassified

/-- Index of the first element satisfying a predicate. -/
def firstIdxWhere (p : α → Bool) : List α → Option Nat
  | [] => none
  | x :: xs => if p x then some 0 else (firstIdxWhere p xs).map (· + 1)

/-- The single-marker fallback scan of `TmuxSessionManager.read_file`:
the first line index whose line contains the marker, accepted only when
that index is positive and the marker is not in the first line. -/
def fallbackScan (m : List Char) (lines : List (List Char)) : Option Nat :=
  match lines with
  | [] => none
  | l0 :: rest =>
    if occursIn m l0 then none
    else (firstIdxWhere (fun l => occursIn m l) rest).map (· + 1)

/-- One poll iteration of `TmuxSessionManager.read_file` applied to a
captured snapshot: `some content` when the iteration returns, `none` when
it falls through to the next attempt. -/
def read_file_attempt (m s : List Char) : Option (List Char) :=
  if occursIn m s then
    let parts := pySplitList m s
    if 3 ≤ parts.length then some (pyStripList (parts.getD 1 []))
    else if parts.length = 2 then
      match fallbackScan m (pySplitlines s) with
      | some i => some (pyStripList (joinNL ((pySplitlines s).take i)))
      | none => none
    else none
  else none

/-- The poll loop of `TmuxSessionManager.read_file` over the sequence of
captured snapshots (one per attempt): returns the first attempt's content,
or the empty string when every attempt falls through. -/
def read_file_loop (m : List Char) : List String → String
  | [] => ""
  | s :: rest =>
    match read_file_attempt m s.toList with
    | some c => String.mk c
    | none => read_file_loop m rest

/-- `max_attempts` of `TmuxSessionManager.read_file`. -/
def max_attempts : Nat := 10

/-- Whitespace characters of the Python `shlex` lexer. -/
def isShlexWs (c : Char) : Bool := c = ' ' ∨ c = '\t' ∨ c = '\r' ∨ c = '\n'

/-- Lexer modes of POSIX `shlex`: outside quotes, inside single quotes,
inside double quotes, after a backslash outside quotes, after a backslash
inside double quotes. -/
inductive ShMode where
  | normal
  | single
  | double
  | escNorm
  | escDbl
deriving DecidableEq

/-- POSIX `shlex` tokenizer (`shlex.split` with comments disabled):
whitespace separates tokens; single quotes are literal; inside double
quotes a backslash escapes only a double quote or a backslash; outside
quotes a backslash escapes any character.  Returns `none` on a dangling
quote or escape (Python raises `ValueError`). -/
def shlexRun : List Char → ShMode → List Char → Bool → Option (List (List Char))
  | [], .normal, cur, started => some (if started then [cur] else [])
  | [], _, _, _ => none
  | c :: rest, .normal, cur, started =>
    if isShlexWs c then
      if started then (shlexRun rest .normal [] false).map (fun ts => cur :: ts)
      else shlexRun rest .normal [] false
    else if c = '\'' then shlexRun rest .single cur true
    else if c = '"' then shlexRun rest .double cur true
    else if c = '\\' then shlexRun rest .escNorm cur started
    else shlexRun rest .normal (cur ++ [c]) true
  | c :: rest, .single, cur, _ =>
    if c = '\'' then shlexRun rest .normal cur true
    else shlexRun rest .single (cur ++ [c]) true
  | c :: rest, .double, cur, _ =>
    if c = '"' then shlexRun rest .normal cur true
    else if c = '\\' then shlexRun rest .escDbl cur true
    else shlexRun rest .double (cur ++ [c]) true
  | c :: rest, .escNorm, cur, _ => shlexRun rest .normal (cur ++ [c]) true
  | c :: rest, .escDbl, cur, _ =>
    if c = '"' ∨ c = '\\' then shlexRun rest .double (cur ++ [c]) true
    else shlexRun rest .double (cur ++ ['\\', c]) true

/-- `shlex.split` on a character list. -/
def shlexSplitList (l : List Char) : Option (List String) :=
  (shlexRun l .normal [] false).map (List.map String.mk)

/-- Worker for `pyWsSplit`. -/
def pyWsSplitAux : Nat → List Char → List (List Char)
  | 0, _ => []
  | fuel + 1, l =>
    match l.dropWhile isPySpace with
    | [] => []
    | l1 =>
      l1.takeWhile (fun c => !isPySpace c) ::
        pyWsSplitAux fuel (l1.dropWhile (fun c => !isPySpace c))

/-- Python `str.split()` with no argument: split on whitespace runs,
discarding empty fields. -/
def pyWsSplit (l : List Char) : List (List Char) := pyWsSplitAux (l.length + 1) l

/-- `CommandValidator._safe_split`: `shlex.split(command.strip())`, falling
back to `command.strip().split()` when `shlex` raises. -/
def safe_split (seg : List Char) : List String :=
  match shlexSplitList (pyStripList seg) with
  | some toks => toks
  | none => (pyWsSplit (pyStripList seg)).map String.mk

/-- Worker for `splitSegments`: split on the separators of the regex used
by `_contains_blocked_tmux_invocation` — a double ampersand, a double
pipe, a semicolon or a single pipe, the alternatives tried in that
order. -/
def segCore (cur : List Char) : List Char → List (List Char)
  | [] => [cur]
  | '&' :: '&' :: rest => cur :: segCore [] rest
  | '|' :: '|' :: rest => cur :: segCore [] rest
  | ';' :: rest => cur :: segCore [] rest
  | '|' :: rest => cur :: segCore [] rest
  | c :: rest => segCore (cur ++ [c]) rest

/-- The `re.split` over command separators in
`_contains_blocked_tmux_invocation` and its screen counterpart. -/
def splitSegments (l : List Char) : List (List Char) := segCore [] l

/-- The environment-assignment test of `_find_invoked_command_index`:
Python `re.match` of a letter-or-underscore, a run of word characters,
then an equals sign, anchored at the start of the token. -/
def isEnvAssign (t : List Char) : Bool :=
  match t with
  | c :: rest =>
    (decide (('A' ≤ c ∧ c ≤ 'Z') ∨ ('a' ≤ c ∧ c ≤ 'z')) || c = '_') &&
      (match rest.dropWhile isWordChar with
       | '=' :: _ => true
       | _ => false)
  | [] => false

/-- Python `token.startswith("-")` on a token, list-based. -/
def startsWithDash (a : String) : Bool :=
  match a.toList with
  | '-' :: _ => true
  | _ => false

/-- The wrapper set skipped by `_find_invoked_command_index`. -/
def wrappersList : List String := ["sudo", "command", "env", "builtin", "exec", "nohup"]

/-- Worker for `find_invoked_command_index`, with fuel bounding the scan. -/
def findInvokedAux : Nat → List String → Nat → Option Nat
  | 0, _, _ => none
  | _ + 1, [], _ => none
  | fuel + 1, t :: rest, i =>
    if isEnvAssign t.toList then findInvokedAux fuel rest (i + 1)
    else if t ∈ wrappersList then
      let flags := rest.takeWhile startsWithDash
      findInvokedAux fuel (rest.drop flags.length) (i + 1 + flags.length)
    else some i

/-- `CommandValidator._find_invoked_command_index`: index of the first
token that is neither an environment-variable assignment nor a known
wrapper (wrappers skip their leading dash flags). -/
def find_invoked_command_index (tokens : List String) : Option Nat :=
  findInvokedAux (tokens.length + 1) tokens 0

/-- `token.rsplit("/", 1)[-1].lower()`: the lowercased base name of the
invoked executable. -/
def baseNameLower (t : String) : String :=
  String.mk (((t.toList.reverse.takeWhile (fun c => c ≠ '/')).reverse).map lowerCh)

/-- `CommandValidator._is_blocked_tmux_usage`. -/
def is_blocked_tmux_usage (args : List String) (strict : Bool) : Bool :=
  if strict then true
  else if args.isEmpty then true
  else
    match args.find? (fun a => !startsWithDash a) with
    | some sub =>
      decide (sub = "attach" ∨ sub = "attach-session" ∨ sub = "a") ||
        decide (sub = "new" ∨ sub = "new-session" ∨ sub = "n")
    | none => false

/-- The read-only discovery flags allowed by `_is_blocked_screen_usage`. -/
def screenSafeFlags : List String := ["-ls", "-list", "-wipe", "-v", "--version", "-version"]

/-- `CommandValidator._is_blocked_screen_usage`. -/
def is_blocked_screen_usage (args : List String) (strict : Bool) : Bool :=
  if strict then true
  else if args.isEmpty then true
  else if args.all (fun a => decide (a ∈ screenSafeFlags)) then false
  else true

/-- `CommandValidator._contains_blocked_tmux_invocation`. -/
def contains_blocked_tmux_invocation (command : List Char) (pty_aware : Bool) : Bool :=
  (splitSegments command).any fun seg =>
    let tokens := safe_split seg
    if tokens.isEmpty then false
    else
      match find_invoked_command_index tokens with
      | none => false
      | some i =>
        if baseNameLower (tokens.getD i "") ≠ "tmux" then false
        else is_blocked_tmux_usage ((tokens.drop (i + 1)).map lowerStr) (!pty_aware)

/-- `CommandValidator._contains_blocked_screen_invocation`. -/
def contains_blocked_screen_invocation (command : List Char) (pty_aware : Bool) : Bool :=
  (splitSegments command).any fun seg =>
    let tokens := safe_split seg
    if tokens.isEmpty then false
    else
      match find_invoked_command_index tokens with
      | none => false
      | some i =>
        if baseNameLower (tokens.getD i "") ≠ "screen" then false
        else is_blocked_screen_usage ((tokens.drop (i + 1)).map lowerStr) (!pty_aware)

/-- Search for the background regex of a trailing ampersand: an ampersand
followed only by whitespace to the end of the command. -/
def bgAmpMatch (s : List Char) : Bool :=
  s.tails.any fun t =>
    match t with
    | '&' :: r => r.all isPySpace
    | _ => false

/-- List of (preceding character, suffix) pairs of a string, used to model
regex searches that consult a word boundary. -/
def prevSuffAux (prev : Option Char) : List Char → List (Option Char × List Char)
  | [] => [(prev, [])]
  | c :: rest => (prev, c :: rest) :: prevSuffAux (some c) rest

/-- Word-boundary condition before a word character: the preceding
character is absent or not a word character. -/
def boundaryBefore : Option Char → Bool
  | none => true
  | some p => !isWordChar p

/-- Case-insensitive literal prefix match. -/
def startsWithCI (w : String) (l : List Char) : Bool :=
  (l.take w.toList.length).map lowerCh = w.toList

/-- Case-insensitive whole-word search (`\b<word>\b` with `re.IGNORECASE`),
for a word made of word characters. -/
def wordBoundaryMatch (w : String) (s : List Char) : Bool :=
  (prevSuffAux none s).any fun p =>
    boundaryBefore p.1 && startsWithCI w p.2 &&
      (match p.2.drop w.toList.length with
       | [] => true
       | a :: _ => !isWordChar a)

/-- Existential split of a list into two adjacent parts satisfying two
predicates: the backtracking semantics of concatenated regex pieces. -/
def splitsAny (l : List Char) (p q : List Char → Bool) : Bool :=
  (List.range (l.length + 1)).any fun k => p (l.take k) && q (l.drop k)

/-- A run matched by a regex dot: no newline. -/
def noNL (l : List Char) : Bool := l.all (fun c => c ≠ '\n')

/-- A nonempty whitespace run (regex whitespace-plus). -/
def wsPlus (l : List Char) : Bool := !l.isEmpty && l.all isPySpace

/-- A run matched by regex whitespace-plus followed by dot-star. -/
def wsPlusDotStar (l : List Char) : Bool := splitsAny l wsPlus noNL

/-- The dangerous pattern for recursive deletion rooted outside safe
prefixes: word-bounded `rm`, whitespace, anything, `-rf`, whitespace, a
slash not followed by `home` or `tmp` (all case-insensitive). -/
def dangerousRm (s : List Char) : Bool :=
  (prevSuffAux none s).any fun p =>
    boundaryBefore p.1 && startsWithCI "rm" p.2 &&
      splitsAny (p.2.drop 2) wsPlusDotStar fun b =>
        startsWithCI "-rf" b &&
          splitsAny (b.drop 3) wsPlus fun z =>
            match z with
            | '/' :: z2 => !startsWithCI "home" z2 && !startsWithCI "tmp" z2
            | _ => false

/-- The dangerous pattern for raw writes to device files: word-bounded
`dd`, whitespace, anything, then `of=/dev/`. -/
def dangerousDd (s : List Char) : Bool :=
  (prevSuffAux none s).any fun p =>
    boundaryBefore p.1 && startsWithCI "dd" p.2 &&
      splitsAny (p.2.drop 2) wsPlusDotStar (fun b => startsWithCI "of=/dev/" b)

/-- Left brace character. -/
def braceL : Char := Char.ofNat 0x7b

/-- Right brace character. -/
def braceR : Char := Char.ofNat 0x7d

/-- The fork-bomb idiom pattern: a word boundary (here: a preceding word
character, since a colon is not a word character), the literal colon,
parentheses and open brace, anything, colon-pipe-colon, anything, then
close brace, semicolon, colon. -/
def dangerousForkBomb (s : List Char) : Bool :=
  (prevSuffAux none s).any fun p =>
    (match p.1 with
     | some c => isWordChar c
     | none => false) &&
      p.2.take 4 = [':', '(', ')', braceL] &&
        splitsAny (p.2.drop 4) noNL fun b =>
          b.take 3 = [':', '|', ':'] &&
            splitsAny (b.drop 3) noNL (fun b2 => b2.take 3 = [braceR, ';', ':'])

/-- `CommandValidator.validate_command`.  The streaming-pattern list of the
source is empty, so its loop never fires; the lowered-and-stripped
`command_lower` of the source is computed but never used.  Returns the
`(is_valid, error_message)` pair. -/
def validate_command (command : String) (check_dangerous : Bool) (pty_aware : Bool) :
    Bool × Option String :=
  let cl := command.toList
  if bgAmpMatch cl then
    (false, some "Background process blocked: Matches pattern '&\\s*$'. Background processes are not allowed.")
  else if wordBoundaryMatch "nohup" cl then
    (false, some "Background process blocked: Matches pattern '\\bnohup\\b'. Background processes are not allowed.")
  else if wordBoundaryMatch "disown" cl then
    (false, some "Background process blocked: Matches pattern '\\bdisown\\b'. Background processes are not allowed.")
  else if contains_blocked_tmux_invocation cl pty_aware then
    (false, some "Background/interactive tmux invocation blocked. Use non-interactive file/inspection commands instead.")
  else if contains_blocked_screen_invocation cl pty_aware then
    (false, some "Background/interactive screen invocation blocked. Use non-interactive file/inspection commands instead.")
  else if check_dangerous then
    if dangerousRm cl then
      (false, some "Dangerous command blocked: Matches pattern '\\brm\\s+.*-rf\\s+/(?!home|tmp)'. This operation is not allowed for safety.")
    else if dangerousDd cl then
      (false, some "Dangerous command blocked: Matches pattern '\\bdd\\s+.*of=/dev/'. This operation is not allowed for safety.")
    else if dangerousForkBomb cl then
      (false, some "Dangerous command blocked: Matches pattern '\\b:\\(\\)\\\x7b.*:\\|:.*\\\x7d;:'. This operation is not allowed for safety.")
    else if wordBoundaryMatch "mkfs" cl then
      (false, some "Dangerous command blocked: Matches pattern '\\bmkfs\\b'. This operation is not allowed for safety.")
    else (true, none)
  else (true, none)

/-- UTF-8 encoding of one character (Python `str.encode("utf-8")`). -/
def utf8EncodeChar (c : Char) : List Nat :=
  let n := c.toNat
  if n < 0x80 then [n]
  else if n < 0x800 then [0xc0 + n / 64, 0x80 + n % 64]
  else if n < 0x10000 then [0xe0 + n / 4096, 0x80 + (n / 64) % 64, 0x80 + n % 64]
  else [0xf0 + n / 262144, 0x80 + (n / 4096) % 64, 0x80 + (n / 64) % 64, 0x80 + n % 64]

/-- UTF-8 encoding of a character list as a byte list. -/
def utf8Encode (l : List Char) : List Nat :=
  l.foldr (fun c acc => utf8EncodeChar c ++ acc) []

/-- A UTF-8 continuation byte. -/
def isCont (b : Nat) : Bool := decide (0x80 ≤ b ∧ b ≤ 0xbf)

/-- Worker for `utf8DecodeIgnore`; the fuel bounds the number of decoding
steps (each consumes at least one byte) and is instantiated with the byte
count. -/
def utf8DecodeAux : Nat → List Nat → List Char
  | 0, _ => []
  | _ + 1, [] => []
  | fuel + 1, b :: rest =>
    if b < 0x80 then Char.ofNat b :: utf8DecodeAux fuel rest
    else if 0xc2 ≤ b ∧ b ≤ 0xdf then
      match rest with
      | b1 :: rest2 =>
        if isCont b1 then
          Char.ofNat ((b - 0xc0) * 64 + (b1 - 0x80)) :: utf8DecodeAux fuel rest2
        else utf8DecodeAux fuel rest
      | [] => []
    else if 0xe0 ≤ b ∧ b ≤ 0xef then
      match rest with
      | b1 :: b2 :: rest2 =>
        let n := (b - 0xe0) * 4096 + (b1 - 0x80) * 64 + (b2 - 0x80)
        if isCont b1 && isCont b2 && decide (0x800 ≤ n) &&
            !decide (0xd800 ≤ n ∧ n ≤ 0xdfff) then
          Char.ofNat n :: utf8DecodeAux fuel rest2
        else utf8DecodeAux fuel rest
      | _ :: [] => utf8DecodeAux fuel rest
      | [] => []
    else if 0xf0 ≤ b ∧ b ≤ 0xf4 then
      match rest with
      | b1 :: b2 :: b3 :: rest2 =>
        let n := (b - 0xf0) * 262144 + (b1 - 0x80) * 4096 + (b2 - 0x80) * 64 + (b3 - 0x80)
        if isCont b1 && isCont b2 && isCont b3 && decide (0x10000 ≤ n ∧ n ≤ 0x10ffff) then
          Char.ofNat n :: utf8DecodeAux fuel rest2
        else utf8DecodeAux fuel rest
      | _ :: _ :: [] => utf8DecodeAux fuel rest
      | _ :: [] => utf8DecodeAux fuel rest
      | [] => []
    else utf8DecodeAux fuel rest

/-- UTF-8 decoding with invalid bytes dropped
(Python `bytes.decode("utf-8", errors="ignore")`). -/
def utf8DecodeIgnore (l : List Nat) : List Char := utf8DecodeAux l.length l

/-- The state of an `OutputLimiter` instance: its size ceiling, cumulative
emitted byte count, and truncation flag. -/
structure OutputLimiter where
  max_size : Nat
  current_size : Nat
  truncated : Bool
deriving DecidableEq, Repr

/-- `OutputLimiter.__init__`. -/
def initLimiter (m : Nat) : OutputLimiter := ⟨m, 0, false⟩

/-- `OutputLimiter.add_chunk`: returns the updated limiter, the chunk to
emit, and the should-continue flag. -/
def add_chunk (st : OutputLimiter) (chunk : String) : OutputLimiter × String × Bool :=
  let bytes := utf8Encode chunk.toList
  let chunk_size := bytes.length
  if st.max_size < st.current_size + chunk_size then
    let remaining := st.max_size - st.current_size
    if 0 < remaining then
      let truncated_chunk := String.mk (utf8DecodeIgnore (bytes.take remaining))
      (⟨st.max_size, st.max_size, true⟩,
        truncated_chunk ++ "\n\n[OUTPUT TRUNCATED: Maximum output size of " ++
          toString st.max_size ++ " bytes exceeded]",
        false)
    else (st, "", false)
  else ({ st with current_size := st.current_size + chunk_size }, chunk, true)

/-- The limiter state after a sequence of `add_chunk` calls. -/
def run_chunks (st : OutputLimiter) : List String → OutputLimiter
  | [] => st
  | c :: cs => run_chunks (add_chunk st c).1 cs

/-- The standard base64 alphabet. -/
def b64Alphabet : List Char :=
  "ABCDEFGHIJKLMNOPQRSTUVWXYZabcdefghijklmnopqrstuvwxyz0123456789+/".toList

/-- Base64 digit for a 6-bit value. -/
def b64Char (n : Nat) : Char := b64Alphabet.getD n 'A'

/-- Base64 encoding of a byte list, with padding. -/
def b64EncodeBytes : List Nat → List Char
  | [] => []
  | [a] => [b64Char (a / 4), b64Char ((a % 4) * 16), '=', '=']
  | [a, b] => [b64Char (a / 4), b64Char ((a % 4) * 16 + b / 16), b64Char ((b % 16) * 4), '=']
  | a :: b :: c :: rest =>
    b64Char (a / 4) :: b64Char ((a % 4) * 16 + b / 16) ::
      b64Char ((b % 16) * 4 + c / 64) :: b64Char (c % 64) :: b64EncodeBytes rest

/-- Python `base64.b64encode(content.encode()).decode()`. -/
def b64encode (s : String) : String := String.mk (b64EncodeBytes (utf8Encode s.toList))

/-- A live tmux window of the shared session: its name, the current pane
text (one entry per captured line), and the transcript of keystroke
batches sent to its pane (`enter=True` entries carry a trailing
newline). -/
structure TmuxWindow where
  window_name : String
  pane_text : List String
  sent_keys : List String
deriving DecidableEq, Repr

/-- The window list of the shared tmux session owned by
`TmuxSessionManager`. -/
structure TmuxState where
  windows : List TmuxWindow
deriving DecidableEq, Repr

/-- `self.session.windows.get(window_name=..., default=None)`: the first
window with the given name, if any. -/
def windows_get (st : TmuxState) (name : String) : Option TmuxWindow :=
  st.windows.find? (fun w => decide (w.window_name = name))

/-- Replace the first window with the given name by its image under `f`. -/
def update_first (ws : List TmuxWindow) (name : String) (f : TmuxWindow → TmuxWindow) :
    List TmuxWindow :=
  match ws with
  | [] => []
  | w :: rest => if w.window_name = name then f w :: rest else w :: update_first rest name f

/-- Remove the first window with the given name (`window.kill()` after a
successful lookup; the list is unchanged when no window matches). -/
def kill_first (ws : List TmuxWindow) (name : String) : List TmuxWindow :=
  match ws with
  | [] => []
  | w :: rest => if w.window_name = name then rest else w :: kill_first rest name

/-- `TmuxSessionManager.get_snapshot`: capture the pane text of the window,
join with newlines, and sanitize; a missing window yields the NotFound
text, not an error.  The method accepts no line-count parameter. -/
def get_snapshot (st : TmuxState) (window_id : String) : String :=
  match windows_get st window_id with
  | none => "Error: Window " ++ window_id ++ " not found."
  | some w => strip_ansi (String.mk (joinNL (w.pane_text.map String.toList)))

/-- `TmuxSessionManager.send_keys`: validate with dangerous checking and
PTY awareness enabled, then look the window up and forward the keystrokes
with a terminating newline; raises (models `ValueError`) on a blocked
verdict or a missing window. -/
def send_keys (st : TmuxState) (window_id keys : String) : Except String TmuxState :=
  let v := validate_command keys true true
  if v.1 then
    match windows_get st window_id with
    | none => Except.error ("Window " ++ window_id ++ " not found")
    | some _ =>
      Except.ok ⟨update_first st.windows window_id
        (fun w => { w with sent_keys := w.sent_keys ++ [keys ++ "\n"] })⟩
  else Except.error ("Command validation failed: " ++ v.2.getD "None")

/-- `TmuxSessionManager.read_file`: raises on a missing window; otherwise
sends the marker-framed cat command and polls.  The randomly generated
marker is a parameter here, and the bounded sequence of captures observed
by the sleep-and-capture loop is passed as `polls`. -/
def read_file (st : TmuxState) (window_id remote_path marker : String)
    (polls : List String) : Except String (TmuxState × String) :=
  match windows_get st window_id with
  | none => Except.error ("Window " ++ window_id ++ " not found")
  | some _ =>
    let cmd := " cat " ++ remote_path ++ " && echo " ++ marker
    Except.ok
      (⟨update_first st.windows window_id
          (fun w => { w with sent_keys := w.sent_keys ++ [cmd ++ "\n"] })⟩,
        read_file_loop marker.toList (polls.take max_attempts))

/-- `TmuxSessionManager.write_file`: raises on a missing window; otherwise
sends the base64-encoded tee command. -/
def write_file (st : TmuxState) (window_id remote_path content : String) (append : Bool) :
    Except String TmuxState :=
  match windows_get st window_id with
  | none => Except.error ("Window " ++ window_id ++ " not found")
  | some _ =>
    let encoded := b64encode content
    let redirect := if append then "-a" else ""
    let cmd := " echo '" ++ encoded ++ "' | base64 -d | tee " ++ redirect ++ " " ++
      remote_path ++ " > /dev/null"
    Except.ok ⟨update_first st.windows window_id
      (fun w => { w with sent_keys := w.sent_keys ++ [cmd ++ "\n"] })⟩

/-- `TmuxSessionManager.close_window`: kill the window when present (a
missing window is skipped silently), then kill the whole session when no
window is left, or when exactly one window with a bare default-shell name
remains.  `none` models the torn-down session container. -/
def close_window (st : TmuxState) (window_id : String) : Option TmuxState :=
  let ws := kill_first st.windows window_id
  match ws with
  | [] => none
  | [w] => if w.window_name ∈ (["bash", "fish", "0"] : List String) then none else some ⟨[w]⟩
  | _ => some ⟨ws⟩

/-- The parameters of `TmuxSessionManager.get_snapshot` besides `self`:
only `window_id`.  There is no `lines` parameter. -/
def get_snapshot_params : List String := ["window_id"]

/-- The Python call `get_manager().get_snapshot(session_id, lines=lines)`
made by `server.get_snapshot_with_hints`: the positional argument binds
`window_id`; every keyword argument must name one of the remaining
parameters, else the call raises `TypeError`. -/
def call_get_snapshot (st : TmuxState) (session_id : String)
    (kwargs : List (String × Nat)) : Except String String :=
  match kwargs.find? (fun kv => !decide (kv.1 ∈ get_snapshot_params.drop 1)) with
  | some kv =>
    Except.error ("TypeError: get_snapshot() got an unexpected keyword argument '" ++
      kv.1 ++ "'")
  | none => Except.ok (get_snapshot st session_id)

/-- Hint text appended by `server.get_snapshot_with_hints` for each
heuristic outcome. -/
def hintText : SnapshotHint → String
  | .promptDetected => "\n\n[INFO: A shell prompt was detected at the end of the screen. The command has likely finished.]"
  | .awaitingInput => "\n\n[INFO: The session appears to be waiting for interactive input (e.g., a password or confirmation).]"
  | .unclassified => ""

/-- `server.get_snapshot_with_hints(session_id, lines)`: call the manager
snapshot passing `lines` as a keyword argument, then append the
completion-heuristic hint. -/
def get_snapshot_with_hints (st : TmuxState) (session_id : String) (lines : Nat) :
    Except String String :=
  match call_get_snapshot st session_id [("lines", lines)] with
  | Except.error e => Except.error e
  | Except.ok snapshot => Except.ok (snapshot ++ hintText (get_hint snapshot))

/-- The outcome of `validate_command` is either an allowed verdict with no
reason or a blocked verdict carrying a reason. -/
lemma validate_cases (c : String) (cd pa : Bool) :
    validate_command c cd pa = (true, none) ∨
      ∃ r, validate_command c cd pa = (false, some r) := by
  unfold validate_command
  dsimp only
  by_cases h1 : bgAmpMatch c.toList = true
  · rw [if_pos h1]; exact Or.inr ⟨_, rfl⟩
  rw [if_neg h1]
  by_cases h2 : wordBoundaryMatch "nohup" c.toList = true
  · rw [if_pos h2]; exact Or.inr ⟨_, rfl⟩
  rw [if_neg h2]
  by_cases h3 : wordBoundaryMatch "disown" c.toList = true
  · rw [if_pos h3]; exact Or.inr ⟨_, rfl⟩
  rw [if_neg h3]
  by_cases h4 : contains_blocked_tmux_invocation c.toList pa = true
  · rw [if_pos h4]; exact Or.inr ⟨_, rfl⟩
  rw [if_neg h4]
  by_cases h5 : contains_blocked_screen_invocation c.toList pa = true
  · rw [if_pos h5]; exact Or.inr ⟨_, rfl⟩
  rw [if_neg h5]
  by_cases h6 : cd = true
  · rw [if_pos h6]
    by_cases h7 : dangerousRm c.toList = true
    · rw [if_pos h7]; exact Or.inr ⟨_, rfl⟩
    rw [if_neg h7]
    by_cases h8 : dangerousDd c.toList = true
    · rw [if_pos h8]; exact Or.inr ⟨_, rfl⟩
    rw [if_neg h8]
    by_cases h9 : dangerousForkBomb c.toList = true
    · rw [if_pos h9]; exact Or.inr ⟨_, rfl⟩
    rw [if_neg h9]
    by_cases h10 : wordBoundaryMatch "mkfs" c.toList = true
    · rw [if_pos h10]; exact Or.inr ⟨_, rfl⟩
    rw [if_neg h10]; exact Or.inl rfl
  · rw [if_neg h6]; exact Or.inl rfl

/-- A blocked verdict of `validate_command` always carries a reason. -/
lemma validate_blocked_reason_isSome (command : String) (cd pa : Bool)
    (h : (validate_command command cd pa).1 = false) :
    (validate_command command cd pa).2.isSome = true := by
  rcases validate_cases command cd pa with hok | ⟨r, hr⟩
  · rw [hok] at h; simp at h
  · rw [hr]; rfl

/-- C1 (code bug): every snapshot issued through the boundary raises.
`server.get_snapshot_with_hints` calls the manager snapshot with the
keyword argument `lines`, but `TmuxSessionManager.get_snapshot` accepts no
such parameter, so the call raises `TypeError` for every state, session id
and requested line count, instead of capturing that many lines. -/
theorem C1_boundary_snapshot_call_raises (st : TmuxState) (session_id : String)
    (lines : Nat) :
    get_snapshot_with_hints st session_id lines =
      Except.error "TypeError: get_snapshot() got an unexpected keyword argument 'lines'" :=
  rfl

/-- C5: any command matching a background pattern (a trailing ampersand,
or `nohup` or `disown` as a word) is blocked by `validate_command` with a
reason, for every combination of the dangerous-checking and PTY-aware
options; in particular `sleep 100 &` is blocked as a background process. -/
theorem C5_background_blocked_unconditionally (command : String) (cd pa : Bool) :
    ((bgAmpMatch command.toList = true ∨
        wordBoundaryMatch "nohup" command.toList = true ∨
        wordBoundaryMatch "disown" command.toList = true) →
      (validate_command command cd pa).1 = false ∧
        (validate_command command cd pa).2.isSome = true) ∧
    validate_command "sleep 100 &" cd pa =
      (false, some "Background process blocked: Matches pattern '&\\s*$'. Background processes are not allowed.") := by
  constructor
  · intro h
    have hblocked : (validate_command command cd pa).1 = false := by
      unfold validate_command
      dsimp only
      rcases h with h | h | h
      · rw [if_pos h]
      · by_cases hb : bgAmpMatch command.toList = true
        · rw [if_pos hb]
        · rw [if_neg hb, if_pos h]
      · by_cases hb : bgAmpMatch command.toList = true
        · rw [if_pos hb]
        · rw [if_neg hb]
          by_cases hn : wordBoundaryMatch "nohup" command.toList = true
          · rw [if_pos hn]
          · rw [if_neg hn, if_pos h]
    exact ⟨hblocked, validate_blocked_reason_isSome command cd pa hblocked⟩
  · rfl

/-- Witness for C5 at the concrete command `sleep 100 &`. -/
theorem C5_background_blocked_unconditionally_witness :
    (validate_command "sleep 100 &" true true).1 = false ∧
      (validate_command "sleep 100 &" true true).2.isSome = true :=
  (C5_background_blocked_unconditionally "sleep 100 &" true true).1 (Or.inl (by decide))

/-- C4: the tmux re-entry rule blocks only commands whose invoked
executable has base name `tmux` (so a command where tmux appears only
inside a file-path argument is never blocked by this rule); concretely
`tmux new-session` is blocked in every mode, `tmux list-sessions` is
allowed PTY-aware, `tmux attach` and bare `tmux` are blocked PTY-aware,
and `cat ~/.tmux.conf` never triggers the rule. -/
theorem C4_tmux_rule_blocks_only_tmux_invocations (command : String) (cd pty : Bool) :
    (contains_blocked_tmux_invocation command.toList pty = true →
      ∃ seg ∈ splitSegments command.toList, ∃ i,
        find_invoked_command_index (safe_split seg) = some i ∧
          baseNameLower ((safe_split seg).getD i "") = "tmux") ∧
    (validate_command "tmux new-session" cd pty).1 = false ∧
    validate_command "tmux list-sessions" false true = (true, none) ∧
    (validate_command "tmux attach" cd true).1 = false ∧
    (validate_command "tmux" cd true).1 = false ∧
    contains_blocked_tmux_invocation "cat ~/.tmux.conf".toList pty = false := by
  refine ⟨?_, ?_, by decide, ?_, ?_, ?_⟩
  · intro h
    simp only [contains_blocked_tmux_invocation, List.any_eq_true] at h
    obtain ⟨seg, hmem, hp⟩ := h
    by_cases he : (safe_split seg).isEmpty
    · rw [if_pos he] at hp; exact absurd hp (by simp)
    · rw [if_neg he] at hp
      rcases hfind : find_invoked_command_index (safe_split seg) with _ | i
      · rw [hfind] at hp; exact absurd hp (by simp)
      · rw [hfind] at hp
        simp at hp
        refine ⟨seg, hmem, i, hfind, ?_⟩
        simpa using hp.1
  · cases cd <;> cases pty <;> decide
  · cases cd <;> decide
  · cases cd <;> decide
  · cases pty <;> decide

/-- Witness for C4 at the concrete command `tmux attach` in PTY-aware
mode. -/
theorem C4_tmux_rule_blocks_only_tmux_invocations_witness :
    contains_blocked_tmux_invocation "tmux attach".toList true = true ∧
      ∃ seg ∈ splitSegments "tmux attach".toList, ∃ i,
        find_invoked_command_index (safe_split seg) = some i ∧
          baseNameLower ((safe_split seg).getD i "") = "tmux" :=
  ⟨by decide, (C4_tmux_rule_blocks_only_tmux_invocations "tmux attach" true true).1 (by decide)⟩

/-- The UTF-8 encoding of a character is never empty. -/
lemma utf8EncodeChar_ne_nil (c : Char) : utf8EncodeChar c ≠ [] := by
  intro h
  unfold utf8EncodeChar at h
  dsimp only at h
  by_cases h1 : c.toNat < 128
  · rw [if_pos h1] at h; simp at h
  · rw [if_neg h1] at h
    by_cases h2 : c.toNat < 2048
    · rw [if_pos h2] at h; simp at h
    · rw [if_neg h2] at h
      by_cases h3 : c.toNat < 65536
      · rw [if_pos h3] at h; simp at h
      · rw [if_neg h3] at h; simp at h

/-- The UTF-8 encoding of a character list is empty only for the empty
list. -/
lemma utf8Encode_eq_nil (l : List Char) : utf8Encode l = [] ↔ l = [] := by
  cases l with
  | nil => simp [utf8Encode]
  | cons c cs =>
    constructor
    · intro h
      have : utf8EncodeChar c ++ utf8Encode cs = [] := h
      exact absurd (List.append_eq_nil.mp this).1 (utf8EncodeChar_ne_nil c)
    · intro h; cases h

/-- `add_chunk` preserves the limiter invariant: the ceiling is fixed, the
cumulative count never exceeds it, and a set truncation flag implies the
count equals the ceiling. -/
lemma add_chunk_inv (st : OutputLimiter) (c : String)
    (h1 : st.current_size ≤ st.max_size)
    (h2 : st.truncated = true → st.current_size = st.max_size) :
    (add_chunk st c).1.max_size = st.max_size ∧
      (add_chunk st c).1.current_size ≤ (add_chunk st c).1.max_size ∧
      ((add_chunk st c).1.truncated = true →
        (add_chunk st c).1.current_size = (add_chunk st c).1.max_size) := by
  unfold add_chunk
  dsimp only
  by_cases hov : st.max_size < st.current_size + (utf8Encode c.toList).length
  · rw [if_pos hov]
    by_cases h0 : 0 < st.max_size - st.current_size
    · rw [if_pos h0]; exact ⟨rfl, le_refl _, fun _ => rfl⟩
    · rw [if_neg h0]; exact ⟨rfl, h1, h2⟩
  · rw [if_neg hov]
    refine ⟨rfl, ?_, ?_⟩
    · dsimp only; omega
    · intro ht
      dsimp only at ht ⊢
      have := h2 ht
      omega

/-- The limiter invariant holds after any run of `add_chunk` calls. -/
lemma run_chunks_inv (cs : List String) : ∀ (st : OutputLimiter),
    st.current_size ≤ st.max_size →
    (st.truncated = true → st.current_size = st.max_size) →
    (run_chunks st cs).max_size = st.max_size ∧
      (run_chunks st cs).current_size ≤ (run_chunks st cs).max_size ∧
      ((run_chunks st cs).truncated = true →
        (run_chunks st cs).current_size = (run_chunks st cs).max_size) := by
  induction cs with
  | nil => intro st h1 h2; exact ⟨rfl, h1, h2⟩
  | cons c cs ih =>
    intro st h1 h2
    have hstep := add_chunk_inv st c h1 h2
    have hrest := ih (add_chunk st c).1 hstep.2.1 hstep.2.2
    refine ⟨?_, hrest.2.1, hrest.2.2⟩
    calc (run_chunks st (c :: cs)).max_size
        = (run_chunks (add_chunk st c).1 cs).max_size := rfl
      _ = (add_chunk st c).1.max_size := hrest.1
      _ = st.max_size := hstep.1

/-- Once the cumulative count has reached the ceiling, `add_chunk` emits
no content at all. -/
lemma add_chunk_no_content (st : OutputLimiter) (c : String)
    (hc : st.current_size = st.max_size) : (add_chunk st c).2.1 = "" := by
  unfold add_chunk
  dsimp only
  by_cases hov : st.max_size < st.current_size + (utf8Encode c.toList).length
  · rw [if_pos hov]
    have h0 : ¬(0 < st.max_size - st.current_size) := by omega
    rw [if_neg h0]
  · rw [if_neg hov]
    have hlen : (utf8Encode c.toList).length = 0 := by omega
    have hnil : utf8Encode c.toList = [] := List.length_eq_zero.mp hlen
    have hcl : c.toList = [] := (utf8Encode_eq_nil _).mp hnil
    dsimp only
    cases c with
    | mk data =>
      have : data = [] := hcl
      rw [this]

/-- C6: with ceiling 10, accumulating `abcde` returns it unchanged with
continue true; the following oversized chunk is truncated to the remaining
budget, carries the truncation annotation, returns continue false and sets
the truncated flag; and after any run of calls from a fresh limiter whose
state is truncated, a further call emits no content at all. -/
theorem C6_output_budget (m : Nat) (cs : List String) (c : String) :
    (add_chunk (initLimiter 10) "abcde" = (⟨10, 5, false⟩, "abcde", true) ∧
      add_chunk ⟨10, 5, false⟩ "fghijklmnopqrst" =
        (⟨10, 10, true⟩,
          "fghij\n\n[OUTPUT TRUNCATED: Maximum output size of 10 bytes exceeded]", false) ∧
      (run_chunks (initLimiter 10) ["abcde", "fghijklmnopqrst"]).truncated = true) ∧
    ((run_chunks (initLimiter m) cs).truncated = true →
      (add_chunk (run_chunks (initLimiter m) cs) c).2.1 = "") := by
  constructor
  · exact ⟨by decide, by decide, by decide⟩
  · intro ht
    have hinv := run_chunks_inv cs (initLimiter m) (by simp [initLimiter]) (by simp [initLimiter])
    exact add_chunk_no_content _ c (hinv.2.2 ht)

/-- Witness for C6: after the concrete truncating run with ceiling 10, a
further chunk emits nothing. -/
theorem C6_output_budget_witness :
    (run_chunks (initLimiter 10) ["abcde", "fghijklmnopqrst"]).truncated = true ∧
      (add_chunk (run_chunks (initLimiter 10) ["abcde", "fghijklmnopqrst"]) "zzz").2.1 = "" :=
  ⟨by decide, (C6_output_budget 10 ["abcde", "fghijklmnopqrst"] "zzz").2 (by decide)⟩

/-- C8: when an operation targets a session id with no live backing
window, the snapshot operation reports NotFound-flavored text (a plain
string result), while send, file read and file write abort with an error;
no state is produced, so no session is modified. -/
theorem C8_missing_session_behavior (st : TmuxState)
    (id keys path content marker : String) (append : Bool) (polls : List String)
    (h : windows_get st id = none) :
    get_snapshot st id = "Error: Window " ++ id ++ " not found." ∧
      (∃ e, send_keys st id keys = Except.error e) ∧
      read_file st id path marker polls = Except.error ("Window " ++ id ++ " not found") ∧
      write_file st id path content append = Except.error ("Window " ++ id ++ " not found") := by
  refine ⟨?_, ?_, ?_, ?_⟩
  · unfold get_snapshot; rw [h]
  · unfold send_keys
    dsimp only
    by_cases hv : (validate_command keys true true).1 = true
    · rw [if_pos hv, h]; exact ⟨_, rfl⟩
    · rw [if_neg hv]; exact ⟨_, rfl⟩
  · unfold read_file; rw [h]
  · unfold write_file; rw [h]

/-- Witness for C8 on the empty window list. -/
theorem C8_missing_session_behavior_witness :
    get_snapshot ⟨[]⟩ "w1" = "Error: Window w1 not found." ∧
      (∃ e, send_keys ⟨[]⟩ "w1" "ls" = Except.error e) ∧
      read_file ⟨[]⟩ "w1" "/tmp/a" "M" [] = Except.error "Window w1 not found" ∧
      write_file ⟨[]⟩ "w1" "/tmp/a" "x" false = Except.error "Window w1 not found" :=
  C8_missing_session_behavior ⟨[]⟩ "w1" "ls" "/tmp/a" "x" "M" false [] (by decide)

/-- C10: `send_keys` validates with dangerous-pattern checking and
PTY-aware mode enabled before touching any window; a blocked verdict
raises an error carrying the validation reason and produces no new state,
and a successful send happens only under an allowed verdict, appending
exactly the keystrokes plus a terminating newline to the target window's
transcript. -/
theorem C10_send_keys_validation_gate (st : TmuxState) (id keys : String) :
    ((validate_command keys true true).1 = false →
      (validate_command keys true true).2.isSome = true ∧
        send_keys st id keys =
          Except.error ("Command validation failed: " ++
            (validate_command keys true true).2.getD "None")) ∧
    (∀ st', send_keys st id keys = Except.ok st' →
      (validate_command keys true true).1 = true ∧
        st'.windows = update_first st.windows id
          (fun w => { w with sent_keys := w.sent_keys ++ [keys ++ "\n"] })) := by
  constructor
  · intro h
    refine ⟨validate_blocked_reason_isSome keys true true h, ?_⟩
    unfold send_keys
    dsimp only
    rw [if_neg (by simp [h])]
  · intro st' hok
    unfold send_keys at hok
    dsimp only at hok
    by_cases hv : (validate_command keys true true).1 = true
    · rw [if_pos hv] at hok
      refine ⟨hv, ?_⟩
      rcases hw : windows_get st id with _ | w
      · rw [hw] at hok; exact absurd hok (by simp)
      · rw [hw] at hok
        simp only at hok
        cases hok
        rfl
    · rw [if_neg hv] at hok; exact absurd hok (by simp)

/-- Witness for C10: a background command is rejected with its reason and
never sent; a plain listing on a live window is forwarded with the
terminating newline. -/
theorem C10_send_keys_validation_gate_witness :
    ((validate_command "sleep 9 &" true true).2.isSome = true ∧
      send_keys ⟨[⟨"w1", [], []⟩]⟩ "w1" "sleep 9 &" =
        Except.error ("Command validation failed: " ++
          (validate_command "sleep 9 &" true true).2.getD "None")) ∧
      ((validate_command "ls" true true).1 = true ∧
        (⟨[⟨"w1", [], ["ls\n"]⟩]⟩ : TmuxState).windows =
          update_first (⟨[⟨"w1", [], []⟩]⟩ : TmuxState).windows "w1"
            (fun w => { w with sent_keys := w.sent_keys ++ ["ls" ++ "\n"] })) :=
  ⟨(C10_send_keys_validation_gate ⟨[⟨"w1", [], []⟩]⟩ "w1" "sleep 9 &").1 (by decide),
    (C10_send_keys_validation_gate ⟨[⟨"w1", [], []⟩]⟩ "w1" "ls").2 ⟨[⟨"w1", [], ["ls\n"]⟩]⟩
      rfl⟩

/-- When no window carries the name, the kill step leaves the window list
unchanged. -/
lemma kill_first_of_get_none (ws : List TmuxWindow) (id : String)
    (h : ws.find? (fun w => decide (w.window_name = id)) = none) :
    kill_first ws id = ws := by
  induction ws with
  | nil => rfl
  | cons w rest ih =>
    by_cases hw : w.window_name = id
    · rw [List.find?_cons_of_pos _ (by simpa using hw)] at h
      cases h
    · rw [List.find?_cons_of_neg _ (by simpa using hw)] at h
      unfold kill_first
      rw [if_neg hw, ih h]

/-- C9: closing an id with no backing window never errors and leaves the
container unchanged whenever the teardown condition does not hold; after
the kill step, an empty window list or a single remaining bare
default-shell window tears the container down; closing the last remaining
session removes the container. -/
theorem C9_close_window (st : TmuxState) (id : String) :
    (windows_get st id = none → ∀ st', close_window st id = some st' → st' = st) ∧
      (kill_first st.windows id = [] → close_window st id = none) ∧
      (∀ w, kill_first st.windows id = [w] →
        w.window_name ∈ (["bash", "fish", "0"] : List String) → close_window st id = none) ∧
      (∀ w, st.windows = [w] → w.window_name = id → close_window st id = none) := by
  obtain ⟨ws⟩ := st
  refine ⟨?_, ?_, ?_, ?_⟩
  · intro h st' hc
    have hk : kill_first ws id = ws := kill_first_of_get_none ws id (by simpa [windows_get] using h)
    unfold close_window at hc
    dsimp only at hc
    rw [hk] at hc
    rcases hws : ws with _ | ⟨w, _ | ⟨w2, rest⟩⟩ <;> rw [hws] at hc
    · cases hc
    · by_cases hw : w.window_name ∈ (["bash", "fish", "0"] : List String)
      · simp only [if_pos hw] at hc
        cases hc
      · simp only [if_neg hw] at hc
        cases hc
        rfl
    · cases hc
      rfl
  · intro hk
    unfold close_window
    dsimp only
    rw [hk]
  · intro w hk hw
    unfold close_window
    dsimp only
    rw [hk]
    simp only [if_pos hw]
  · intro w hws hname
    have hws' : ws = [w] := hws
    have hk : kill_first ws id = [] := by
      rw [hws']
      unfold kill_first
      rw [if_pos hname]
    unfold close_window
    dsimp only
    rw [hk]

/-- Witness for C9: closing an absent id on a non-default single-window
container is a no-op; closing the last session removes the container. -/
theorem C9_close_window_witness :
    ((⟨[⟨"u@h-ab12", [], []⟩]⟩ : TmuxState) = (⟨[⟨"u@h-ab12", [], []⟩]⟩ : TmuxState)) ∧
      close_window ⟨[⟨"u@h-ab12", [], []⟩]⟩ "u@h-ab12" = none :=
  ⟨(C9_close_window ⟨[⟨"u@h-ab12", [], []⟩]⟩ "zzzz").1 (by decide)
      ⟨[⟨"u@h-ab12", [], []⟩]⟩ rfl,
    (C9_close_window ⟨[⟨"u@h-ab12", [], []⟩]⟩ "u@h-ab12").2.2.2 ⟨"u@h-ab12", [], []⟩ rfl rfl⟩

/-- Filtering preserves the last element when the last element satisfies
the predicate. -/
lemma getLast?_filter_of_pred {α : Type} (p : α → Bool) (l : List α) (x : α)
    (hl : l.getLast? = some x) (hp : p x = true) :
    (l.filter p).getLast? = some x := by
  induction l with
  | nil => cases hl
  | cons a as ih =>
    cases as with
    | nil =>
      simp only [List.getLast?_singleton] at hl
      cases hl
      simp [List.filter_cons, hp]
    | cons b bs =>
      have hl' : (b :: bs).getLast? = some x := by rwa [List.getLast?_cons_cons] at hl
      have hrec := ih hl'
      rw [List.filter_cons]
      by_cases hpa : p a = true
      · rw [if_pos hpa]
        cases hfe : List.filter p (b :: bs) with
        | nil => rw [hfe] at hrec; cases hrec
        | cons u us =>
          rw [hfe] at hrec
          rw [List.getLast?_cons_cons]
          exact hrec
      · rw [if_neg hpa]
        exact hrec

/-- C2 counterexample: the heuristic inspects the capture's final line,
not its last non-blank line.  A capture whose prompt line is followed by a
blank line classifies Unclassified under the code, while the claim's
last-non-blank-line rule classifies it PromptDetected. -/
theorem C2_heuristic_counterexample :
    get_hint "user@host:~$ \n\n" = SnapshotHint.unclassified ∧
      classifySpecLastNonBlank "user@host:~$ \n\n" = SnapshotHint.promptDetected := by
  exact ⟨by decide, by decide⟩

/-- C2 amended: the completion heuristic classifies a capture by its final
line (empty when the capture is blank); whenever that final line is
non-blank it coincides with the classification by the last non-blank line,
and the three concrete examples of the claim hold. -/
theorem C2_heuristic_last_line (s : String)
    (h : pyStripList (last_line s).toList ≠ []) :
    get_hint s = classifySpecLastNonBlank s ∧
      get_hint "user@host:~$ " = SnapshotHint.promptDetected ∧
      get_hint "login:\nPassword: " = SnapshotHint.awaitingInput ∧
      get_hint "Reading package lists... Done" = SnapshotHint.unclassified := by
  refine ⟨?_, by decide, by decide, by decide⟩
  by_cases hs : pyStripList s.toList = []
  · exfalso
    have hempty : last_line s = "" := by
      unfold last_line
      rw [if_pos hs]
    apply h
    rw [hempty]
    rfl
  · have hll : last_line s = String.mk ((pySplitlines s.toList).getLastD []) := by
      unfold last_line
      rw [if_neg hs]
    set L := (pySplitlines s.toList).getLastD [] with hL
    have hLne : pyStripList L ≠ [] := by
      rw [hll] at h
      exact h
    have hlines : pySplitlines s.toList ≠ [] := by
      intro hnil
      apply hLne
      rw [hL, hnil]
      rfl
    have hsome : (pySplitlines s.toList).getLast? = some L := by
      rw [hL, List.getLastD_eq_getLast?]
      cases hgl : (pySplitlines s.toList).getLast? with
      | none => exact absurd (List.getLast?_eq_none_iff.mp hgl) hlines
      | some y => rfl
    have hpL : (fun l => !(pyStripList l).isEmpty) L = true := by
      simpa [List.isEmpty_iff] using hLne
    have hfl : ((pySplitlines s.toList).filter
        (fun l => !(pyStripList l).isEmpty)).getLast? = some L :=
      getLast?_filter_of_pred _ _ _ hsome hpL
    have hfld : ((pySplitlines s.toList).filter
        (fun l => !(pyStripList l).isEmpty)).getLastD [] = L := by
      rw [List.getLastD_eq_getLast?, hfl]
      rfl
    unfold get_hint classifySpecLastNonBlank
    dsimp only
    rw [hll, hfld]
    rfl

/-- Witness for the C2 amended theorem at a concrete capture with a
non-blank final line. -/
theorem C2_heuristic_last_line_witness :
    pyStripList (last_line "user@host:~$ ").toList ≠ [] ∧
      get_hint "user@host:~$ " = classifySpecLastNonBlank "user@host:~$ " :=
  ⟨by decide, (C2_heuristic_last_line "user@host:~$ " (by decide)).1⟩

/-- A nonempty pattern is not a prefix of the empty list. -/
lemma isPrefixOf_nil_of_ne {m : List Char} (hm : m ≠ []) :
    m.isPrefixOf ([] : List Char) = false := by
  cases m with
  | nil => cases hm rfl
  | cons c cs => rfl

/-- Splitting at an occurrence of a nonempty pattern strictly shortens the
remainder. -/
lemma firstSplitList_length_lt (m : List Char) (hm : m ≠ []) :
    ∀ l a b, firstSplitList m l = some (a, b) → b.length < l.length := by
  intro l
  induction l with
  | nil =>
    intro a b h
    unfold firstSplitList at h
    rw [if_neg (by simp [isPrefixOf_nil_of_ne hm])] at h
    cases h
  | cons c rest ih =>
    intro a b h
    unfold firstSplitList at h
    by_cases hp : m.isPrefixOf (c :: rest) = true
    · rw [if_pos hp] at h
      cases h
      have hm1 : 1 ≤ m.length := by
        cases m with
        | nil => cases hm rfl
        | cons _ _ => simp
      simp [List.length_drop]
      omega
    · rw [if_neg hp] at h
      cases hfs : firstSplitList m rest with
      | none => rw [hfs] at h; cases h
      | some ab =>
        obtain ⟨a', b'⟩ := ab
        rw [hfs] at h
        have hlt := ih a' b' hfs
        cases h
        simp
        omega

/-- The split worker is independent of the fuel, once the fuel exceeds the
input length. -/
lemma pySplitAux_congr (m : List Char) (hm : m ≠ []) :
    ∀ f1 : Nat, ∀ (f2 : Nat) (l : List Char), l.length < f1 → l.length < f2 →
      pySplitAux m f1 l = pySplitAux m f2 l := by
  intro f1
  induction f1 with
  | zero => intro f2 l h1 _; exact absurd h1 (Nat.not_lt_zero _)
  | succ k ih =>
    intro f2 l h1 h2
    cases f2 with
    | zero => exact absurd h2 (Nat.not_lt_zero _)
    | succ j =>
      show (match firstSplitList m l with
        | none => [l]
        | some (a, b) => a :: pySplitAux m k b) =
        (match firstSplitList m l with
        | none => [l]
        | some (a, b) => a :: pySplitAux m j b)
      cases hfs : firstSplitList m l with
      | none => rfl
      | some ab =>
        obtain ⟨a, b⟩ := ab
        have hb := firstSplitList_length_lt m hm l a b hfs
        simp only
        rw [ih j b (by omega) (by omega)]

/-- `pySplitList` when the pattern does not occur. -/
lemma pySplitList_of_none (m l : List Char) (h : firstSplitList m l = none) :
    pySplitList m l = [l] := by
  show (match firstSplitList m l with
    | none => [l]
    | some (a, b) => a :: pySplitAux m l.length b) = [l]
  rw [h]

/-- `pySplitList` at the first occurrence of a nonempty pattern. -/
lemma pySplitList_of_some (m l a b : List Char) (hm : m ≠ [])
    (h : firstSplitList m l = some (a, b)) :
    pySplitList m l = a :: pySplitList m b := by
  have hstep : pySplitList m l = a :: pySplitAux m l.length b := by
    show (match firstSplitList m l with
      | none => [l]
      | some (a, b) => a :: pySplitAux m l.length b) = a :: pySplitAux m l.length b
    rw [h]
  rw [hstep]
  have hb := firstSplitList_length_lt m hm l a b h
  rw [pySplitAux_congr m hm l.length (b.length + 1) b (by omega) (by omega)]
  rfl

/-- A split always yields at least one part. -/
lemma pySplitList_ne_nil (m l : List Char) : pySplitList m l ≠ [] := by
  intro h
  rw [show pySplitList m l = (match firstSplitList m l with
    | none => [l]
    | some (a, b) => a :: pySplitAux m l.length b) from rfl] at h
  cases hfs : firstSplitList m l with
  | none => rw [hfs] at h; cases h
  | some ab => obtain ⟨a, b⟩ := ab; rw [hfs] at h; cases h

/-- Python substring membership agrees with first-occurrence splitting. -/
lemma occursIn_eq_isSome (m : List Char) :
    ∀ l, occursIn m l = (firstSplitList m l).isSome := by
  intro l
  induction l with
  | nil =>
    show (m.isPrefixOf ([] : List Char) || false) = (firstSplitList m []).isSome
    unfold firstSplitList
    cases hp : m.isPrefixOf ([] : List Char)
    · simp
    · simp
  | cons c rest ih =>
    show (m.isPrefixOf (c :: rest) || rest.tails.any (fun t => m.isPrefixOf t)) =
      (firstSplitList m (c :: rest)).isSome
    unfold firstSplitList
    cases hp : m.isPrefixOf (c :: rest)
    · rw [if_neg (by simp), Bool.false_or]
      rw [show rest.tails.any (fun t => m.isPrefixOf t) =
        (firstSplitList m rest).isSome from ih]
      cases hfs : firstSplitList m rest with
      | none => rfl
      | some ab => obtain ⟨a, b⟩ := ab; rfl
    · simp

/-- A poll attempt on a capture not containing the marker falls through. -/
lemma read_file_attempt_of_not_contains (m s : List Char) (h : occursIn m s = false) :
    read_file_attempt m s = none := by
  unfold read_file_attempt
  rw [if_neg (by simp [h])]

/-- Poll attempts on captures without the marker are skipped. -/
lemma read_file_loop_skip (m : List Char) (skipped polls : List String)
    (h : ∀ t ∈ skipped, occursIn m t.toList = false) :
    read_file_loop m (skipped ++ polls) = read_file_loop m polls := by
  induction skipped with
  | nil => rfl
  | cons t ts ih =>
    have hatt : read_file_attempt m t.toList = none :=
      read_file_attempt_of_not_contains m t.toList (h t (by simp))
    show (match read_file_attempt m t.toList with
      | some c => String.mk c
      | none => read_file_loop m (ts ++ polls)) = read_file_loop m polls
    rw [hatt]
    exact ih (fun u hu => h u (by simp [hu]))

/-- A capture with two non-overlapping occurrences of the marker resolves
to the trimmed text between the first two occurrences. -/
lemma read_file_attempt_two_markers (m s : List Char) (hm : m ≠ [])
    (pre r2 mid post : List Char)
    (h1 : firstSplitList m s = some (pre, r2))
    (h2 : firstSplitList m r2 = some (mid, post)) :
    read_file_attempt m s = some (pyStripList mid) := by
  have hocc : occursIn m s = true := by rw [occursIn_eq_isSome, h1]; rfl
  have hparts : pySplitList m s = pre :: mid :: pySplitList m post := by
    rw [pySplitList_of_some m s pre r2 hm h1, pySplitList_of_some m r2 mid post hm h2]
  unfold read_file_attempt
  rw [if_pos hocc]
  dsimp only
  rw [hparts]
  have hlen : 3 ≤ (pre :: mid :: pySplitList m post).length := by
    have := List.length_pos.mpr (pySplitList_ne_nil m post)
    simp
    omega
  rw [if_pos hlen]
  rfl

/-- A capture with exactly one occurrence of the marker, on a line with
positive index, resolves to the trimmed join of the lines before that
line. -/
lemma read_file_attempt_single_marker (m s : List Char) (hm : m ≠ [])
    (pre r2 : List Char) (i : Nat)
    (h1 : firstSplitList m s = some (pre, r2))
    (h2 : firstSplitList m r2 = none)
    (hidx : firstIdxWhere (fun l => occursIn m l) (pySplitlines s) = some i)
    (hpos : 0 < i) :
    read_file_attempt m s = some (pyStripList (joinNL ((pySplitlines s).take i))) := by
  have hocc : occursIn m s = true := by rw [occursIn_eq_isSome, h1]; rfl
  have hparts : pySplitList m s = [pre, r2] := by
    rw [pySplitList_of_some m s pre r2 hm h1, pySplitList_of_none m r2 h2]
  have hfb : fallbackScan m (pySplitlines s) = some i := by
    unfold fallbackScan
    cases hls : pySplitlines s with
    | nil => rw [hls] at hidx; cases hidx
    | cons l0 rest =>
      rw [hls] at hidx
      unfold firstIdxWhere at hidx
      show (if occursIn m l0 = true then none
        else (firstIdxWhere (fun l => occursIn m l) rest).map (· + 1)) = some i
      by_cases h0 : occursIn m l0 = true
      · rw [if_pos h0] at hidx
        cases hidx
        omega
      · rw [if_neg h0] at hidx
        rw [if_neg h0]
        exact hidx
  unfold read_file_attempt
  rw [if_pos hocc]
  dsimp only
  rw [hparts]
  rw [if_neg (by simp)]
  rw [if_pos (by simp)]
  rw [hfb]

/-- No occurrence across the whole poll sequence yields the empty
result. -/
lemma read_file_loop_no_marker (m : List Char) (polls : List String)
    (h : ∀ t ∈ polls, occursIn m t.toList = false) :
    read_file_loop m polls = "" := by
  have := read_file_loop_skip m polls [] h
  simpa using this

/-- C3: the marker extraction of `read_file` follows the spec's framing.
On the first marker-containing capture (any number of marker-free captures
may precede it): two non-overlapping occurrences yield the trimmed text
between the first and second occurrence; a single occurrence on a line
with positive index yields the trimmed text captured before that line;
and when no occurrence ever appears the result is empty. -/
theorem C3_read_file_marker_framing (m s : String) (skipped rest polls : List String)
    (hm : m.toList ≠ [])
    (hskip : ∀ t ∈ skipped, occursIn m.toList t.toList = false) :
    (∀ pre r2 mid post, firstSplitList m.toList s.toList = some (pre, r2) →
      firstSplitList m.toList r2 = some (mid, post) →
      read_file_loop m.toList (skipped ++ s :: rest) = String.mk (pyStripList mid)) ∧
    (∀ pre r2 i, firstSplitList m.toList s.toList = some (pre, r2) →
      firstSplitList m.toList r2 = none →
      firstIdxWhere (fun l => occursIn m.toList l) (pySplitlines s.toList) = some i →
      0 < i →
      read_file_loop m.toList (skipped ++ s :: rest) =
        String.mk (pyStripList (joinNL ((pySplitlines s.toList).take i)))) ∧
    ((∀ t ∈ polls, occursIn m.toList t.toList = false) →
      read_file_loop m.toList polls = "") := by
  refine ⟨?_, ?_, read_file_loop_no_marker m.toList polls⟩
  · intro pre r2 mid post h1 h2
    rw [read_file_loop_skip m.toList skipped (s :: rest) hskip]
    show (match read_file_attempt m.toList s.toList with
      | some c => String.mk c
      | none => read_file_loop m.toList rest) = String.mk (pyStripList mid)
    rw [read_file_attempt_two_markers m.toList s.toList hm pre r2 mid post h1 h2]
  · intro pre r2 i h1 h2 hidx hpos
    rw [read_file_loop_skip m.toList skipped (s :: rest) hskip]
    show (match read_file_attempt m.toList s.toList with
      | some c => String.mk c
      | none => read_file_loop m.toList rest) =
      String.mk (pyStripList (joinNL ((pySplitlines s.toList).take i)))
    rw [read_file_attempt_single_marker m.toList s.toList hm pre r2 i h1 h2 hidx hpos]

/-- Witness for C3: the test scenario of the repository, a prompt-only
first capture followed by a capture holding the echoed command, the file
content between the two markers, and the trailing marker. -/
theorem C3_read_file_marker_framing_witness :
    read_file_loop "__MCP_EOF_ab12cd34__".toList
        ["user@host:~$ ",
          "user@host:~$ cat /tmp/t.txt && echo __MCP_EOF_ab12cd34__\nfile content\n__MCP_EOF_ab12cd34__"] =
      String.mk (pyStripList "\nfile content\n".toList) :=
  (C3_read_file_marker_framing "__MCP_EOF_ab12cd34__"
      "user@host:~$ cat /tmp/t.txt && echo __MCP_EOF_ab12cd34__\nfile content\n__MCP_EOF_ab12cd34__"
      ["user@host:~$ "] [] [] (by decide) (by decide)).1
    "user@host:~$ cat /tmp/t.txt && echo ".toList
    "\nfile content\n__MCP_EOF_ab12cd34__".toList
    "\nfile content\n".toList [] (by decide) (by decide)

/-- A removal pass is the identity on inputs none of whose characters can
begin a match. -/
lemma scanSub_id (tryAt : List Char → Option (List Char)) (P : Char → Bool)
    (htry : ∀ (c : Char) (t : List Char), P c = false → tryAt (c :: t) = none) :
    ∀ (fuel : Nat) (l : List Char), (∀ c ∈ l, P c = false) → scanSub tryAt fuel l = l := by
  intro fuel
  induction fuel with
  | zero => intro l _; rfl
  | succ k ih =>
    intro l hl
    cases l with
    | nil => rfl
    | cons c rest =>
      show (match tryAt (c :: rest) with
        | some rem => scanSub tryAt k rem
        | none => c :: scanSub tryAt k rest) = c :: rest
      rw [htry c rest (hl c (by simp))]
      rw [ih rest (fun u hu => hl u (by simp [hu]))]

/-- The CSI pattern can only match at an escape character. -/
lemma tryCsi_none (c : Char) (t : List Char) (h : (c = escChar) → False) :
    tryCsi (c :: t) = none := by
  cases t with
  | nil => rfl
  | cons c1 r =>
    show (if c = escChar ∧ c1 = '[' then
        match (r.dropWhile isCsiParam).dropWhile isCsiInter with
        | f :: r3 => if isCsiFinal f then some r3 else none
        | [] => none
      else none) = none
    rw [if_neg (fun hand => h hand.1)]

/-- The OSC-BEL pattern can only match at an escape character. -/
lemma tryOscBel_none (c : Char) (t : List Char) (h : (c = escChar) → False) :
    tryOscBel (c :: t) = none := by
  cases t with
  | nil => rfl
  | cons c1 r =>
    show (if c = escChar ∧ c1 = ']' then
        match r.dropWhile (fun d => d ≠ belChar) with
        | _ :: r2 => some r2
        | [] => none
      else none) = none
    rw [if_neg (fun hand => h hand.1)]

/-- The OSC-ST pattern can only match at an escape character. -/
lemma tryOscSt_none (c : Char) (t : List Char) (h : (c = escChar) → False) :
    tryOscSt (c :: t) = none := by
  cases t with
  | nil => rfl
  | cons c1 r =>
    show (if c = escChar ∧ c1 = ']' then
        match r.dropWhile (fun d => d ≠ escChar) with
        | e :: b :: r2 => if e = escChar ∧ b = '\\' then some r2 else none
        | _ => none
      else none) = none
    rw [if_neg (fun hand => h hand.1)]

/-- The DCS-family pattern can only match at an escape character. -/
lemma tryDcs_none (c : Char) (t : List Char) (h : (c = escChar) → False) :
    tryDcs (c :: t) = none := by
  cases t with
  | nil => rfl
  | cons c1 r =>
    show (if c = escChar ∧ (c1 = 'P' ∨ c1 = 'X' ∨ c1 = '^' ∨ c1 = '_') then
        match r.dropWhile (fun d => d ≠ escChar) with
        | e :: b :: r2 => if e = escChar ∧ b = '\\' then some r2 else none
        | _ => none
      else none) = none
    rw [if_neg (fun hand => h hand.1)]

/-- C7 counterexample: the sanitizer is not idempotent.  On the input made
of an open angle bracket, the digit one, a carriage return, the digit two
and a close angle bracket, the first pass only removes the carriage
return, splicing a bracketed integer that the second pass then removes. -/
theorem C7_strip_ansi_not_idempotent :
    strip_ansi (strip_ansi "<1\r2>") ≠ strip_ansi "<1\r2>" := by decide

/-- C7 amended: the sanitizer is idempotent on every input whose sanitized
form is unchanged by the bracketed-integer pass — equivalently, whose
sanitized output contains no newly spliced bracketed integer.  The
sanitized output contains no escape character and none of the two removed
character classes, so all other passes are the identity on it. -/
theorem C7_strip_ansi_idempotent_no_angle (x : String)
    (h : subAngle (stripAnsiList x.toList) = stripAnsiList x.toList) :
    strip_ansi (strip_ansi x) = strip_ansi x := by
  set y := stripAnsiList x.toList with hy
  have hy7 : ∀ c ∈ y, isCtrlNoise c = false := by
    intro c hc
    rw [hy] at hc
    unfold stripAnsiList at hc
    have := List.mem_filter.mp hc
    simpa using this.2
  have hy6 : ∀ c ∈ y, isSpecialNoise c = false := by
    intro c hc
    rw [hy] at hc
    unfold stripAnsiList at hc
    have h1 := List.mem_filter.mp hc
    have h2 := List.mem_filter.mp h1.1
    simpa using h2.2
  have hP : ∀ c ∈ y, (decide (c = escChar) : Bool) = false := by
    intro c hc
    have h7 := hy7 c hc
    by_cases he : c = escChar
    · rw [he] at h7
      exact absurd h7 (by decide)
    · simp [he]
  have hesc : ∀ (f : List Char → Option (List Char)),
      (∀ (c : Char) (t : List Char), (c = escChar → False) → f (c :: t) = none) →
      scanSub f y.length y = y := by
    intro f hf
    exact scanSub_id f (fun c => decide (c = escChar))
      (fun c t hc => hf c t (fun he => by rw [he] at hc; simp at hc))
      y.length y hP
  have e1 : subCsi y = y := hesc tryCsi tryCsi_none
  have e2 : subOscBel y = y := hesc tryOscBel tryOscBel_none
  have e3 : subOscSt y = y := hesc tryOscSt tryOscSt_none
  have e4 : subDcs y = y := hesc tryDcs tryDcs_none
  have hstrip : stripAnsiList y = y := by
    unfold stripAnsiList
    rw [show subCsi y = y from e1, e2, e3, e4, h]
    have f1 : List.filter (fun c => !isSpecialNoise c) y = y :=
      List.filter_eq_self.mpr (fun a ha => by simp [hy6 a ha])
    have f2 : List.filter (fun c => !isCtrlNoise c) y = y :=
      List.filter_eq_self.mpr (fun a ha => by simp [hy7 a ha])
    rw [f1, f2]
  show String.mk (stripAnsiList (String.mk y).toList) = String.mk y
  rw [show (String.mk y).toList = y from rfl, hstrip]

/-- Witness for the C7 amended theorem: a capture with a color sequence
sanitizes to plain text, on which the sanitizer is idempotent. -/
theorem C7_strip_ansi_idempotent_no_angle_witness :
    subAngle (stripAnsiList "hello\x1b[31m".toList) = stripAnsiList "hello\x1b[31m".toList ∧
      strip_ansi (strip_ansi "hello\x1b[31m") = strip_ansi "hello\x1b[31m" :=
  ⟨by decide, C7_strip_ansi_idempotent_no_angle "hello\x1b[31m" (by decide)⟩

end McpSshTmux
